import Mathlib

/-!
Verification of the Matrix.js library (src/matrix.js): a shallow embedding
of its data model and operations, with theorems settling the specification
claims.  JS numbers are modelled as `Int` (every claim and scenario uses
integer data); JS `undefined` holes created by out-of-range writes are
modelled as `0` (a comment marks each spot; no verified statement reads
such a cell).  Mutation is modelled by explicit state passing: a mutating
method becomes a function from the receiver to the updated receiver, and a
`throw` becomes an `Except`/`Option` error value.
-/

namespace MatrixJS

/-- The Matrix entity (src/matrix.js, constructor): `rows` and `cols` are the
non-writable dimension properties fixed at construction, `value` the mutable
2D grid.  Grids are lists of rows. -/
structure Matrix where
  rows : Nat
  cols : Nat
  value : List (List Int)
deriving DecidableEq

/-- `this.dimensions` getter: the `[this.rows, this.cols]` pair. -/
def Matrix.dimensions (A : Matrix) : List Nat := [A.rows, A.cols]

/-- Read `g[i]` with JS semantics (missing row reads as an empty row). -/
def atRow (g : List (List Int)) (i : Nat) : List Int := g.getD i []

/-- Read `g[i][j]` with JS semantics; out-of-range reads (JS `undefined`)
default to 0.  Every verified statement reads only in-range cells. -/
def atG (g : List (List Int)) (i j : Nat) : Int := (atRow g i).getD j 0

/-- Read a cell of a matrix's grid (`this.value[i][j]`). -/
def Matrix.entry (A : Matrix) (i j : Nat) : Int := atG A.value i j

/-- Well-formedness of the stored grid: exactly `rows` rows of exactly `cols`
cells each (the data-model invariant of spec section 3). -/
def Matrix.wf (A : Matrix) : Bool :=
  A.value.length == A.rows && A.value.all (fun r => r.length == A.cols)

/-- JS array index assignment `l[j] = v`: in range it updates, at or past the
end it extends the array to length `j+1`.  JS fills the skipped slots with
holes (`undefined`); they are modelled as 0 here, and no verified statement
reads such a slot. -/
def jsSetIdx (l : List Int) (j : Nat) (v : Int) : List Int :=
  if j < l.length then l.set j v
  else l ++ List.replicate (j - l.length) 0 ++ [v]

/-- `zero(value)` (src/matrix.js lines 200-211): rebuilds the grid as
`rows` fresh rows of `cols` copies of `value` (default 0). -/
def zeroGrid (r c : Nat) (v : Int) : List (List Int) :=
  List.replicate r (List.replicate c v)

/-- `reset()` (src/matrix.js lines 189-194): `zero()` then `set(i, i)(1)` for
every `i < this.dimensions[0] = rows` — note the loop bound is `rows`, not
`min(rows, cols)`, so for `rows > cols` the write `value[i][i] = 1` lands past
the end of row `i` and extends it (see `jsSetIdx`). -/
def resetGrid (r c : Nat) : List (List Int) :=
  (List.range r).map (fun i => jsSetIdx (List.replicate c 0) i 1)

/-- `reset()` as a receiver update. -/
def Matrix.resetM (A : Matrix) : Matrix := ⟨A.rows, A.cols, resetGrid A.rows A.cols⟩

/-- `new Matrix([r, c])`: a 1D dimensions argument stores the dimensions and
calls `reset()` (src/matrix.js lines 86-88). -/
def mkDims (r c : Nat) : Matrix := ⟨r, c, resetGrid r c⟩

/-- `new Matrix(grid)` for a 2D values argument (src/matrix.js lines 78-85):
`rows = grid.length`, `cols = grid[0].length`, and each cell is
`grid[row][col] || 0` — a missing (or zero) cell stores 0, which `atG`'s
default matches. -/
def mkGrid (g : List (List Int)) : Matrix :=
  ⟨g.length, (g.getD 0 []).length,
   (List.range g.length).map (fun i =>
     (List.range (g.getD 0 []).length).map (fun j => atG g i j))⟩

/-- Outcome of `get(x, y)` (src/matrix.js lines 130-132), which runs
`return this.value[x][y]` with no bounds check: a stored value, JS
`undefined` (row in range, column out of range), or a thrown TypeError
(row out of range, so `undefined[y]` is read).  `indexError` is the outcome
the spec asks for; modelled from the spec, the code never produces it. -/
inductive GetResult
  | val (v : Int)
  | undef
  | typeError
  | indexError
deriving DecidableEq

/-- `get(x, y)` (src/matrix.js lines 130-132): `return this.value[x][y]`. -/
def Matrix.get (A : Matrix) (x y : Nat) : GetResult :=
  match A.value.get? x with
  | none => .typeError
  | some row =>
    match row.get? y with
    | none => .undef
    | some v => .val v

/-- The `I` getter (src/matrix.js lines 106-112): returns
`new Matrix(this.dimensions).value` — a raw nested array (the grid of a fresh
identity-filled matrix), not a Matrix instance. -/
def Matrix.I (A : Matrix) : List (List Int) := (mkDims A.rows A.cols).value

/-- Longest row length of a grid: the length of `_.zip`'s result. -/
def maxLen (g : List (List Int)) : Nat := g.foldr (fun r m => max r.length m) 0

/-- `_.zip.apply(_, g)` (underscore's zip of all rows, used by the `T` getter,
src/matrix.js line 100): row `j` of the result collects cell `j` of every row
of `g`.  Underscore pads missing cells with `undefined`, modelled as 0; on the
rectangular grids of every verified statement no padding occurs. -/
def zipGrid (g : List (List Int)) : List (List Int) :=
  (List.range (maxLen g)).map (fun j => g.map (fun row => row.getD j 0))

/-- The `T` getter (src/matrix.js lines 97-104): a new Matrix of the swapped
dimensions whose grid is replaced wholesale by `_.zip` of the source rows. -/
def Matrix.T (A : Matrix) : Matrix := ⟨A.cols, A.rows, zipGrid A.value⟩

/-- Equality of `Except` outcomes is decidable when both component types are;
used to evaluate modelled operations on concrete inputs. -/
instance {e a : Type} [DecidableEq e] [DecidableEq a] : DecidableEq (Except e a) := fun x y =>
  match x, y with
  | .error e1, .error e2 =>
    if h : e1 = e2 then .isTrue (h ▸ rfl) else .isFalse (fun hh => h (by injection hh))
  | .error _, .ok _ => .isFalse (fun hh => Except.noConfusion hh)
  | .ok _, .error _ => .isFalse (fun hh => Except.noConfusion hh)
  | .ok a1, .ok a2 =>
    if h : a1 = a2 then .isTrue (h ▸ rfl) else .isFalse (fun hh => h (by injection hh))

/-- Errors thrown by the modelled operations, one constructor per `throw`
site, plus the JS TypeError raised by indexing into `undefined`.
`dimensionError` carries the two extents the message interpolates
(`A.cols + ' !== ' + B.rows`, src/matrix.js line 340). -/
inductive MErr
  | dimensionError (leftCols rightRows : Nat)
  | protoDotShape
  | addShape
  | typeError
deriving DecidableEq

/-- End state of `copy`'s write loop (src/matrix.js lines 147-151): for every
source row `r < M.rows`, columns `0..M.cols-1` of target row `r` are
overwritten with `M.value[r][c]` (the writes run `c` descending; the first
write may extend the row, and every extended slot is then filled, so row `r`
ends as the source row followed by the old cells past column `M.cols`).
Rows of the target at index `≥ M.rows` are untouched. -/
def copyVals (tgt : List (List Int)) (M : Matrix) : List (List Int) :=
  (List.range tgt.length).map (fun r =>
    if r < M.rows then
      (List.range M.cols).map (fun c => atG M.value r c) ++ (atRow tgt r).drop M.cols
    else atRow tgt r)

/-- Argument to `copy(M)`: a Matrix instance, or a raw nested array that the
first line of `copy` coerces via `new Matrix(M)` (src/matrix.js line 146). -/
inductive CopyArg
  | mat (M : Matrix)
  | raw (g : List (List Int))

/-- `copy(M)` (src/matrix.js lines 144-152): coerce a non-Matrix argument,
then overwrite `this.value[row][col] = M.value[row][col]` for `row < M.rows`,
`col < M.cols` — there is no shape check.  The loop throws a TypeError (not
any ShapeError) iff the source has more rows than the target grid and at
least one column, because the first write then indexes into an `undefined`
row; the throw happens before any cell is written. -/
def Matrix.copy (A : Matrix) (arg : CopyArg) : Option Matrix :=
  let M := match arg with | .mat M => M | .raw g => mkGrid g
  if M.rows ≤ A.value.length ∨ M.cols = 0 then
    some ⟨A.rows, A.cols, copyVals A.value M⟩
  else none

/-- One cell of a pairwise dot product (src/matrix.js lines 348-352):
`sum` starts at 0 and accumulates `A.value[row][j] * B.value[j][col]` with
`j` running from `A.cols - 1` down to 0. -/
def dotCell (A B : Matrix) (i j : Nat) : Int :=
  ((List.range A.cols).reverse).foldl (fun s k => s + A.entry i k * B.entry k j) 0

/-- Grid of one pairwise dot product: `result = new Matrix([A.rows, B.cols])`,
`result.zero()`, then every cell `(row, col)` with `row < A.rows`,
`col < B.cols` is assigned its accumulated sum (src/matrix.js lines 342-355);
the end state is exactly this comprehension. -/
def dotGrid (A B : Matrix) : List (List Int) :=
  (List.range A.rows).map (fun i => (List.range B.cols).map (fun j => dotCell A B i j))

/-- The fresh result matrix of one pairwise dot product. -/
def dotMat (A B : Matrix) : Matrix := ⟨A.rows, B.cols, dotGrid A B⟩

/-- One pairwise step of `Matrix.dot` (src/matrix.js lines 339-355): throw a
DimensionError reporting `A.cols` and `B.rows` when they differ, otherwise
produce the fresh result matrix. -/
def dotStep (A B : Matrix) : Except MErr Matrix :=
  if A.cols ≠ B.rows then .error (.dimensionError A.cols B.rows)
  else .ok (dotMat A B)

/-- `A = new Matrix(result.dimensions); A.copy(result)` (src/matrix.js lines
334-335): the clone of an intermediate result.  The `copy` guard holds here
(`result.rows` equals the fresh grid's row count), so the clone is the plain
`copyVals` end state; when `rows > cols` the fresh identity grid's rows past
the diagonal keep a trailing 1 that `copy` does not overwrite, but no later
read reaches those cells. -/
def cloneViaCopy (M : Matrix) : Matrix :=
  ⟨M.rows, M.cols, copyVals (resetGrid M.rows M.cols) M⟩

/-- Iterations 1.. of `Matrix.dot`'s loop (src/matrix.js lines 330-357): the
running result is cloned (`cloneViaCopy`) and multiplied by the next operand. -/
def dotChainRest (r : Matrix) : List Matrix → Except MErr Matrix
  | [] => .ok r
  | B :: rest => do dotChainRest (← dotStep (cloneViaCopy r) B) rest

/-- The free function `Matrix.dot(...)` (src/matrix.js lines 326-360): with
fewer than two arguments the loop never runs and the function returns the
still-`undefined` `result` (modelled as `none`); otherwise the first step
multiplies the first two operands directly and each later step multiplies a
clone of the running result by the next operand. -/
def dotFree : List Matrix → Except MErr (Option Matrix)
  | A :: B :: rest => do
    let r ← dotStep A B
    let f ← dotChainRest r rest
    return some f
  | _ => .ok none

/-- The prototype `dot` (src/matrix.js lines 447-461): for each operand, throw
unless the receiver is square and the operand's dimensions equal the
receiver's (a call with no operands checks nothing); then delegate to
`Matrix.dot(this, ...args)` and copy the result back into the receiver.
When the delegate returns `undefined` (no operands) the copy coerces it via
`new Matrix(undefined)`, which defaults to the 2×2 identity-filled matrix. -/
def Matrix.protoDot (A : Matrix) (args : List Matrix) : Except MErr Matrix :=
  if args.all (fun M => A.rows == A.cols && A.dimensions == M.dimensions) then
    match dotFree (A :: args) with
    | .error e => .error e
    | .ok r =>
      match A.copy (.mat (r.getD (mkDims 2 2))) with
      | some A2 => .ok A2
      | none => .error .typeError
  else .error .protoDotShape

/-- A variadic-argument slot of the elementwise and product functions: a JS
number, a Matrix instance, or any other value (`other` keeps the raw payload;
the code never inspects it beyond the two `typeof`/`instanceof` tests, and
the concrete case of interest is the raw grid returned by the `I` getter). -/
inductive Operand
  | scalar (v : Int)
  | matrix (M : Matrix)
  | other (g : List (List Int))

/-- End state of one elementwise `+=` pass (src/matrix.js lines 409-413):
cell `(row, col)` of the receiver grid gains `src[row][col]` for every
`row < rows`, `col < cols`; all other cells (and any longer row tails) are
untouched.  Receiver grids always carry exactly `rows` rows, so no write
indexes a missing row. -/
def ewAdd (rows cols : Nat) (g src : List (List Int)) : List (List Int) :=
  (List.range g.length).map (fun i =>
    if i < rows then
      (List.range (atRow g i).length).map (fun j =>
        if j < cols then atG g i j + atG src i j else atG g i j)
    else atRow g i)

/-- The prototype `add` (src/matrix.js lines 396-416): each numeric operand is
broadcast to a receiver-shaped uniform matrix (`new Matrix(this.dimensions)`
then `zero(val)`); any other operand must have dimensions equal to the
receiver's, else the `'Cannot add matrices of different dimensions.'` throw
fires (a non-Matrix non-number operand has no `dimensions` property, so the
`_.isEqual` test fails and the same throw fires); then one `+=` pass runs. -/
def protoAdd (A : Matrix) : List Operand → Except MErr Matrix
  | [] => .ok A
  | .scalar v :: rest =>
    protoAdd ⟨A.rows, A.cols, ewAdd A.rows A.cols A.value (zeroGrid A.rows A.cols v)⟩ rest
  | .matrix M :: rest =>
    if A.dimensions == M.dimensions then
      protoAdd ⟨A.rows, A.cols, ewAdd A.rows A.cols A.value M.value⟩ rest
    else .error .addShape
  | .other _ :: _ => .error .addShape

/-- The scan of `Matrix.add` for its first Matrix-typed argument
(src/matrix.js lines 269-272). -/
def firstMatrix : List Operand → Option Matrix
  | [] => none
  | .matrix M :: _ => some M
  | _ :: rest => firstMatrix rest

/-- The free function `Matrix.add(...)` (src/matrix.js lines 266-280): find
the first Matrix argument, build a zeroed matrix of its dimensions, and run
the prototype `add` on it with all the original arguments.  With no Matrix
argument, reading `first.dimensions` from `undefined` throws a TypeError. -/
def freeAdd (args : List Operand) : Except MErr Matrix :=
  match firstMatrix args with
  | none => .error .typeError
  | some F => protoAdd ⟨F.rows, F.cols, zeroGrid F.rows F.cols 0⟩ args

/-- End state of one scalar-multiplication pass of the prototype `product`
(src/matrix.js lines 476-480): every cell `(row, col)` with `row < rows`,
`col < cols` is multiplied by `v`; other cells are untouched. -/
def scaleGrid (rows cols : Nat) (g : List (List Int)) (v : Int) : List (List Int) :=
  (List.range g.length).map (fun i =>
    if i < rows then
      (List.range (atRow g i).length).map (fun j =>
        if j < cols then atG g i j * v else atG g i j)
    else atRow g i)

/-- The prototype `product` (src/matrix.js lines 469-488): a numeric operand
scales every cell, a Matrix operand runs the prototype `dot`, and any other
operand matches neither branch and is skipped with no effect. -/
def protoProduct (A : Matrix) : List Operand → Except MErr Matrix
  | [] => .ok A
  | .scalar v :: rest =>
    protoProduct ⟨A.rows, A.cols, scaleGrid A.rows A.cols A.value v⟩ rest
  | .matrix M :: rest => do protoProduct (← A.protoDot [M]) rest
  | .other _ :: rest => protoProduct A rest

/-- The free function `Matrix.product(...)` (src/matrix.js lines 362-371):
`new Matrix(args[0].dimensions)`, copy the shifted first argument into it,
then run the prototype `product` with the remaining arguments.
A Matrix head makes the base `cloneViaCopy` of it.  A numeric head has no
`dimensions`, so the base is the default 2×2 matrix and the copy coercion
`new Matrix(number)` yields an empty-valued matrix whose copy loop runs zero
times.  A raw-array head likewise gets the default 2×2 base, and the copy
coerces the array itself.  An empty call reads `args[0].dimensions` from
`undefined` and throws a TypeError. -/
def freeProduct : List Operand → Except MErr Matrix
  | [] => .error .typeError
  | .matrix F :: rest => protoProduct (cloneViaCopy F) rest
  | .scalar _ :: rest => protoProduct (mkDims 2 2) rest
  | .other g :: rest =>
    match (mkDims 2 2).copy (.raw g) with
    | some R => protoProduct R rest
    | none => .error .typeError

/-- The loop of `pow` (src/matrix.js lines 529-531): `this.dot(A)` repeated,
with `A0` the saved copy of the original receiver value. -/
def powLoop (A0 : Matrix) : Matrix → Nat → Except MErr Matrix
  | M, 0 => .ok M
  | M, Nat.succ k => do powLoop A0 (← M.protoDot [A0]) k

/-- The prototype `pow(exp)` (src/matrix.js lines 521-535): save a copy of the
receiver, then either `reset()` (exponent 0) or run `this.dot(saved)` for
`i = 1 .. exp-1`, i.e. `exp - 1` times. -/
def Matrix.powM (A : Matrix) (exp : Nat) : Except MErr Matrix :=
  let A0 := cloneViaCopy A
  if exp = 0 then .ok A.resetM
  else powLoop A0 A (exp - 1)

/-- Specification-level iterated dot product: `k` successive multiplications
of the running value by the fixed right factor `A` — the shape of computation
the pow claim describes (`exp - 1` dot applications against the saved
original, linear in the exponent). -/
def specPowFrom (M A : Matrix) : Nat → Matrix
  | 0 => M
  | k + 1 => dotMat (specPowFrom M A k) A

/-- First dimension mismatch of a dot-product chain whose running result has
`c` columns: the pair of extents (`left.cols`, `right.rows`) the code's
DimensionError message reports (src/matrix.js lines 339-341), or `none` when
every remaining adjacent pair is compatible. -/
def firstBadFrom (c : Nat) : List Matrix → Option (Nat × Nat)
  | [] => none
  | B :: rest => if c ≠ B.rows then some (c, B.rows) else firstBadFrom B.cols rest

/-- First dimension mismatch among the adjacent pairs of a `Matrix.dot`
argument list (the running result after absorbing `args[i]` always has
`args[i].cols` columns). -/
def firstBad : List Matrix → Option (Nat × Nat)
  | [] => none
  | A :: rest => firstBadFrom A.cols rest

lemma getD_map_range {α : Type} (f : Nat → α) {n i : Nat} (h : i < n) (d : α) :
    ((List.range n).map f).getD i d = f i := by
  rw [List.getD_eq_getElem?_getD, List.getElem?_map, List.getElem?_range h, Option.map_some',
    Option.getD_some]

lemma atRow_map_range (f : Nat → List Int) {n i : Nat} (h : i < n) :
    atRow ((List.range n).map f) i = f i :=
  getD_map_range f h []

lemma rowReadBack (l : List Int) :
    (List.range l.length).map (fun j => l.getD j 0) = l := by
  induction l with
  | nil => rfl
  | cons x tl ih =>
    simp only [List.length_cons, List.range_succ_eq_map, List.map_cons, List.map_map]
    refine congrArg₂ _ rfl ?_
    have hcomp : ((fun j => (x :: tl).getD j 0) ∘ Nat.succ) = fun j => tl.getD j 0 := by
      funext j
      simp [List.getD_cons_succ]
    rw [hcomp, ih]

lemma readBack {g : List (List Int)} {c : Nat} (hc : ∀ row ∈ g, row.length = c) :
    (List.range g.length).map (fun i => (List.range c).map (fun j => atG g i j)) = g := by
  induction g with
  | nil => rfl
  | cons row tl ih =>
    simp only [List.length_cons, List.range_succ_eq_map, List.map_cons, List.map_map]
    refine congrArg₂ _ ?_ ?_
    · have hrow : row.length = c := hc row (by simp)
      have : (List.range c).map (fun j => atG (row :: tl) 0 j)
          = (List.range row.length).map (fun j => row.getD j 0) := by rw [hrow]; rfl
      rw [this, rowReadBack]
    · have := ih (fun r hr => hc r (List.mem_cons_of_mem _ hr))
      simpa [Function.comp] using this

lemma foldl_add_sum (f : Nat → Int) (l : List Nat) (s : Int) :
    l.foldl (fun acc k => acc + f k) s = s + (l.map f).sum := by
  induction l generalizing s with
  | nil => simp
  | cons a tl ih => simp [ih, add_assoc]

lemma dotCell_eq_sum (A B : Matrix) (i j : Nat) :
    dotCell A B i j = ((List.range A.cols).map (fun k => A.entry i k * B.entry k j)).sum := by
  unfold dotCell
  rw [foldl_add_sum, zero_add, List.map_reverse, List.sum_reverse]

lemma wf_iff (A : Matrix) :
    A.wf = true ↔ A.value.length = A.rows ∧ ∀ r ∈ A.value, r.length = A.cols := by
  simp [Matrix.wf, List.all_eq_true]

lemma atG_zeroGrid {r c : Nat} (v : Int) {i j : Nat} (hi : i < r) (hj : j < c) :
    atG (zeroGrid r c v) i j = v := by
  simp [atG, atRow, zeroGrid, List.getD_eq_getElem?_getD, List.getElem?_replicate, hi, hj]

lemma zeroGrid_wf (r c : Nat) (v : Int) :
    (⟨r, c, zeroGrid r c v⟩ : Matrix).wf = true := by
  rw [wf_iff]
  constructor
  · simp [zeroGrid]
  · intro row hrow
    simp only [zeroGrid, List.eq_of_mem_replicate hrow, List.length_replicate]

lemma atG_resetGrid {r c i j : Nat} (hi : i < r) (hic : i < c) (hj : j < c) :
    atG (resetGrid r c) i j = if i = j then 1 else 0 := by
  unfold atG resetGrid
  rw [atRow_map_range _ hi]
  unfold jsSetIdx
  rw [if_pos (by simpa using hic), List.getD_eq_getElem?_getD]
  by_cases h : i = j
  · subst h
    rw [List.getElem?_set_self (by simpa using hic), if_pos rfl, Option.getD_some]
  · rw [List.getElem?_set_ne h, List.getElem?_replicate, if_neg h]
    split <;> simp

lemma resetGrid_wf {r c : Nat} (h : r ≤ c) :
    (⟨r, c, resetGrid r c⟩ : Matrix).wf = true := by
  rw [wf_iff]
  constructor
  · simp [resetGrid]
  · intro row hrow
    simp only [resetGrid, List.mem_map, List.mem_range] at hrow
    obtain ⟨i, hi, rfl⟩ := hrow
    unfold jsSetIdx
    rw [if_pos (by simp; omega)]
    simp

lemma atG_eq_getD_getElem {g : List (List Int)} {i : Nat} (hi : i < g.length) (j : Nat) :
    atG g i j = (g[i]).getD j 0 := by
  unfold atG atRow
  congr 1
  rw [List.getD_eq_getElem?_getD, List.getElem?_eq_getElem hi, Option.getD_some]

lemma entry_dotMat {A B : Matrix} {i j : Nat} (hi : i < A.rows) (hj : j < B.cols) :
    (dotMat A B).entry i j = dotCell A B i j := by
  unfold dotMat Matrix.entry atG dotGrid
  rw [atRow_map_range _ hi, getD_map_range _ hj]

lemma dotMat_wf (A B : Matrix) : (dotMat A B).wf = true := by
  rw [wf_iff]
  refine ⟨by simp [dotMat, dotGrid], ?_⟩
  intro row hrow
  simp only [dotMat, dotGrid, List.mem_map, List.mem_range] at hrow
  obtain ⟨i, _, rfl⟩ := hrow
  simp [dotMat]

lemma length_copyVals (tgt : List (List Int)) (M : Matrix) :
    (copyVals tgt M).length = tgt.length := by
  simp [copyVals]

lemma atG_copyVals_src {tgt : List (List Int)} {M : Matrix} {i j : Nat}
    (hi : i < tgt.length) (hir : i < M.rows) (hj : j < M.cols) :
    atG (copyVals tgt M) i j = atG M.value i j := by
  unfold copyVals
  rw [atG, atRow_map_range _ hi, if_pos hir, List.getD_eq_getElem?_getD,
    List.getElem?_append_left (by simpa using hj), List.getElem?_map,
    List.getElem?_range hj, Option.map_some', Option.getD_some]

lemma atG_copyVals_old_col {tgt : List (List Int)} {M : Matrix} {i j : Nat}
    (hi : i < tgt.length) (hir : i < M.rows) (hj : M.cols ≤ j) :
    atG (copyVals tgt M) i j = atG tgt i j := by
  unfold copyVals
  rw [atG, atRow_map_range _ hi, if_pos hir, List.getD_eq_getElem?_getD,
    List.getElem?_append_right (by simpa using hj), List.length_map, List.length_range,
    List.getElem?_drop]
  rw [atG, List.getD_eq_getElem?_getD]
  congr 2
  omega

lemma atG_copyVals_old_row {tgt : List (List Int)} {M : Matrix} {i : Nat} (j : Nat)
    (hi : i < tgt.length) (hir : M.rows ≤ i) :
    atG (copyVals tgt M) i j = atG tgt i j := by
  unfold copyVals
  rw [atG, atRow_map_range _ hi, if_neg (by omega)]
  rfl

lemma copyVals_same {tgt : List (List Int)} {M : Matrix}
    (hlen : tgt.length = M.rows) (hrows : ∀ row ∈ tgt, row.length = M.cols)
    (hM : M.wf = true) : copyVals tgt M = M.value := by
  obtain ⟨hMlen, hMrows⟩ := (wf_iff M).mp hM
  unfold copyVals
  have hdrop : ∀ r ∈ List.range tgt.length,
      (if r < M.rows then
        (List.range M.cols).map (fun c => atG M.value r c) ++ (atRow tgt r).drop M.cols
      else atRow tgt r)
      = (List.range M.cols).map (fun c => atG M.value r c) := by
    intro r hr
    rw [List.mem_range] at hr
    rw [if_pos (by omega)]
    have : (atRow tgt r).drop M.cols = [] := by
      apply List.drop_eq_nil_of_le
      have : atRow tgt r ∈ tgt := by
        unfold atRow
        rw [List.getD_eq_getElem?_getD, List.getElem?_eq_getElem hr, Option.getD_some]
        exact List.getElem_mem hr
      rw [hrows _ this]
    rw [this, List.append_nil]
  rw [List.map_congr_left hdrop, hlen, ← hMlen, readBack (fun row h => hMrows row h)]

lemma cloneViaCopy_rows (M : Matrix) : (cloneViaCopy M).rows = M.rows := rfl

lemma cloneViaCopy_cols (M : Matrix) : (cloneViaCopy M).cols = M.cols := rfl

lemma entry_cloneViaCopy {M : Matrix} {i j : Nat} (hi : i < M.rows) (hj : j < M.cols) :
    (cloneViaCopy M).entry i j = M.entry i j := by
  unfold cloneViaCopy Matrix.entry
  exact atG_copyVals_src (by simpa [resetGrid] using hi) hi hj

lemma length_ewAdd (rows cols : Nat) (g src : List (List Int)) :
    (ewAdd rows cols g src).length = g.length := by
  simp [ewAdd]

lemma atRow_ewAdd {rows cols : Nat} {g src : List (List Int)} {i : Nat} (hi : i < g.length) :
    atRow (ewAdd rows cols g src) i =
      if i < rows then
        (List.range (atRow g i).length).map (fun j =>
          if j < cols then atG g i j + atG src i j else atG g i j)
      else atRow g i := by
  unfold ewAdd
  rw [atRow_map_range _ hi]

lemma length_atRow_ewAdd {rows cols : Nat} {g src : List (List Int)} {i : Nat}
    (hi : i < g.length) :
    (atRow (ewAdd rows cols g src) i).length = (atRow g i).length := by
  rw [atRow_ewAdd hi]
  split <;> simp

lemma atG_ewAdd {rows cols : Nat} {g src : List (List Int)} {i j : Nat}
    (hi : i < g.length) (hir : i < rows) (hj : j < (atRow g i).length) (hjc : j < cols) :
    atG (ewAdd rows cols g src) i j = atG g i j + atG src i j := by
  rw [atG, atRow_ewAdd hi, if_pos hir, getD_map_range _ hj, if_pos hjc]

lemma ewAdd_wf {A : Matrix} {src : List (List Int)} (hA : A.wf = true) :
    (⟨A.rows, A.cols, ewAdd A.rows A.cols A.value src⟩ : Matrix).wf = true := by
  obtain ⟨hlen, hrows⟩ := (wf_iff A).mp hA
  rw [wf_iff]
  refine ⟨by rw [length_ewAdd, hlen], ?_⟩
  intro row hrow
  simp only [ewAdd, List.mem_map, List.mem_range] at hrow
  obtain ⟨i, hi, rfl⟩ := hrow
  have hmem : atRow A.value i ∈ A.value := by
    unfold atRow
    rw [List.getD_eq_getElem?_getD, List.getElem?_eq_getElem hi, Option.getD_some]
    exact List.getElem_mem hi
  split <;> simp [hrows _ hmem]

lemma maxLen_const {g : List (List Int)} {c : Nat} (hg : g ≠ [])
    (hc : ∀ row ∈ g, row.length = c) : maxLen g = c := by
  induction g with
  | nil => exact absurd rfl hg
  | cons row tl ih =>
    have hrow : row.length = c := hc row (by simp)
    rcases tl with - | ⟨r2, tl2⟩
    · simp [maxLen, hrow]
    · have := ih (by simp) (fun r hr => hc r (List.mem_cons_of_mem _ hr))
      simp only [maxLen] at this ⊢
      simp [hrow, this]

lemma zipGrid_rect {g : List (List Int)} {c : Nat} (hg : g ≠ [])
    (hc : ∀ row ∈ g, row.length = c) :
    zipGrid g = (List.range c).map (fun j => g.map (fun row => row.getD j 0)) := by
  unfold zipGrid
  rw [maxLen_const hg hc]

lemma zipGrid_zipGrid {g : List (List Int)} {c : Nat} (hg : g ≠ [])
    (hc : ∀ row ∈ g, row.length = c) (hcpos : 0 < c) :
    zipGrid (zipGrid g) = g := by
  rw [zipGrid_rect hg hc]
  have hzlen : ∀ row ∈ (List.range c).map (fun j => g.map (fun r => r.getD j 0)),
      row.length = g.length := by
    intro row hrow
    simp only [List.mem_map, List.mem_range] at hrow
    obtain ⟨j, _, rfl⟩ := hrow
    simp
  rw [zipGrid_rect (by simp [List.range_eq_nil]; omega) hzlen]
  have hstep : ∀ j ∈ List.range g.length,
      ((List.range c).map (fun k => g.map (fun r => r.getD k 0))).map (fun col => col.getD j 0)
      = (List.range c).map (fun k => atG g j k) := by
    intro j hj
    rw [List.mem_range] at hj
    rw [List.map_map]
    refine List.map_congr_left ?_
    intro k _
    simp only [Function.comp]
    rw [List.getD_eq_getElem?_getD, List.getElem?_map, List.getElem?_eq_getElem hj,
      Option.map_some', Option.getD_some]
    exact (atG_eq_getD_getElem hj k).symm
  rw [List.map_congr_left hstep]
  have := readBack (g := g) (c := c) hc
  rw [this]

lemma entry_eq_getElem {A : Matrix} {i j : Nat} (hi' : i < A.value.length)
    (hj' : j < (A.value[i]).length) : A.entry i j = A.value[i][j] := by
  unfold Matrix.entry
  rw [atG_eq_getD_getElem hi', List.getD_eq_getElem?_getD, List.getElem?_eq_getElem hj',
    Option.getD_some]

lemma get_in_range {A : Matrix} {i j : Nat} (hwf : A.wf = true)
    (hi : i < A.rows) (hj : j < A.cols) :
    A.get i j = .val (A.entry i j) := by
  obtain ⟨hlen, hrows⟩ := (wf_iff A).mp hwf
  have hi' : i < A.value.length := by omega
  have hrowmem : A.value[i] ∈ A.value := List.getElem_mem hi'
  have hj' : j < (A.value[i]).length := by rw [hrows _ hrowmem]; exact hj
  have h1 : A.value[i]? = some (A.value[i]) := List.getElem?_eq_getElem hi'
  have h2 : (A.value[i])[j]? = some (A.value[i][j]) := List.getElem?_eq_getElem hj'
  simp only [Matrix.get, List.get?_eq_getElem?, h1, h2, entry_eq_getElem hi' hj']

lemma get_row_out {A : Matrix} {i : Nat} (j : Nat) (hwf : A.wf = true) (hi : A.rows ≤ i) :
    A.get i j = .typeError := by
  obtain ⟨hlen, -⟩ := (wf_iff A).mp hwf
  have h1 : A.value[i]? = none := List.getElem?_eq_none (by omega)
  simp only [Matrix.get, List.get?_eq_getElem?, h1]

lemma get_col_out {A : Matrix} {i j : Nat} (hwf : A.wf = true) (hi : i < A.rows)
    (hj : A.cols ≤ j) : A.get i j = .undef := by
  obtain ⟨hlen, hrows⟩ := (wf_iff A).mp hwf
  have hi' : i < A.value.length := by omega
  have hrowmem : A.value[i] ∈ A.value := List.getElem_mem hi'
  have h1 : A.value[i]? = some (A.value[i]) := List.getElem?_eq_getElem hi'
  have h2 : (A.value[i])[j]? = none := List.getElem?_eq_none (by rw [hrows _ hrowmem]; omega)
  simp only [Matrix.get, List.get?_eq_getElem?, h1, h2]

lemma get_never_indexError (A : Matrix) (i j : Nat) : A.get i j ≠ .indexError := by
  unfold Matrix.get
  split
  · simp
  · split <;> simp

lemma dims_beq_iff (A M : Matrix) :
    (A.dimensions == M.dimensions) = true ↔ M.rows = A.rows ∧ M.cols = A.cols := by
  simp only [Matrix.dimensions, beq_iff_eq, List.cons.injEq, and_true]
  constructor
  · rintro ⟨h1, h2⟩
    exact ⟨h1.symm, h2.symm⟩
  · rintro ⟨h1, h2⟩
    exact ⟨h1.symm, h2.symm⟩

lemma dotChainRest_ok {rest : List Matrix} {r : Matrix}
    (h : firstBadFrom r.cols rest = none) :
    ∃ f, dotChainRest r rest = .ok f ∧ f.rows = r.rows := by
  induction rest generalizing r with
  | nil => exact ⟨r, rfl, rfl⟩
  | cons B rest ih =>
    unfold firstBadFrom at h
    by_cases hc : r.cols ≠ B.rows
    · rw [if_pos hc] at h
      exact absurd h (by simp)
    · rw [if_neg hc] at h
      push_neg at hc
      have hstep : dotStep (cloneViaCopy r) B = .ok (dotMat (cloneViaCopy r) B) := by
        unfold dotStep
        rw [if_neg (by rw [cloneViaCopy_cols]; simpa using hc)]
      have hcols : (dotMat (cloneViaCopy r) B).cols = B.cols := rfl
      obtain ⟨f, hf, hfr⟩ := ih (r := dotMat (cloneViaCopy r) B) (by rw [hcols]; exact h)
      refine ⟨f, ?_, ?_⟩
      · unfold dotChainRest
        rw [hstep]
        exact hf
      · rw [hfr]
        rfl

lemma dotChainRest_err {rest : List Matrix} {r : Matrix} {a b : Nat}
    (h : firstBadFrom r.cols rest = some (a, b)) :
    dotChainRest r rest = .error (.dimensionError a b) := by
  induction rest generalizing r with
  | nil => exact absurd h (by simp [firstBadFrom])
  | cons B rest ih =>
    unfold firstBadFrom at h
    by_cases hc : r.cols ≠ B.rows
    · rw [if_pos hc] at h
      have hab : a = r.cols ∧ b = B.rows := by
        injection h with h'
        obtain ⟨h1, h2⟩ := Prod.mk.injEq .. ▸ h'
        exact ⟨h1.symm, h2.symm⟩
      obtain ⟨ha, hb⟩ := hab
      subst ha; subst hb
      unfold dotChainRest dotStep
      rw [if_pos (by rw [cloneViaCopy_cols]; exact hc)]
      rfl
    · rw [if_neg hc] at h
      push_neg at hc
      have hstep : dotStep (cloneViaCopy r) B = .ok (dotMat (cloneViaCopy r) B) := by
        unfold dotStep
        rw [if_neg (by rw [cloneViaCopy_cols]; simpa using hc)]
      have := ih (r := dotMat (cloneViaCopy r) B) (by exact h)
      unfold dotChainRest
      rw [hstep]
      exact this

lemma except_bind_ok {α β : Type} (a : α) (k : α → Except MErr β) :
    (Except.ok a >>= k : Except MErr β) = k a := rfl

lemma except_bind_err {α β : Type} (e : MErr) (k : α → Except MErr β) :
    (Except.error e >>= k : Except MErr β) = .error e := rfl

lemma copy_mat_eq (A M : Matrix) :
    A.copy (.mat M) = if M.rows ≤ A.value.length ∨ M.cols = 0 then
      some ⟨A.rows, A.cols, copyVals A.value M⟩ else none := rfl

lemma copy_raw_eq (A : Matrix) (g : List (List Int)) :
    A.copy (.raw g) = A.copy (.mat (mkGrid g)) := rfl

lemma dotFree_cons_cons (A B : Matrix) (rest : List Matrix) :
    dotFree (A :: B :: rest) =
      (dotStep A B >>= fun r => dotChainRest r rest >>= fun f => pure (some f)) := rfl

lemma firstBadFrom_none_of_all {c : Nat} {l : List Matrix}
    (h : ∀ M ∈ l, M.rows = c ∧ M.cols = c) : firstBadFrom c l = none := by
  induction l with
  | nil => rfl
  | cons B rest ih =>
    obtain ⟨hr, hc⟩ := h B (by simp)
    unfold firstBadFrom
    rw [if_neg (by omega), hc]
    exact ih (fun M hM => h M (List.mem_cons_of_mem _ hM))

lemma protoDot_all_iff (A : Matrix) (args : List Matrix) (hne : args ≠ []) :
    (args.all (fun M => A.rows == A.cols && A.dimensions == M.dimensions) = true)
    ↔ (A.rows = A.cols ∧ ∀ M ∈ args, M.rows = A.rows ∧ M.cols = A.cols) := by
  rw [List.all_eq_true]
  constructor
  · intro h
    obtain ⟨M0, hM0⟩ := List.exists_mem_of_ne_nil args hne
    have h0 := h M0 hM0
    rw [Bool.and_eq_true] at h0
    refine ⟨by simpa using h0.1, ?_⟩
    intro M hM
    have hM' := h M hM
    rw [Bool.and_eq_true] at hM'
    exact (dims_beq_iff A M).mp hM'.2
  · rintro ⟨hsq, hall⟩ M hM
    rw [Bool.and_eq_true]
    exact ⟨by simpa using hsq, (dims_beq_iff A M).mpr (hall M hM)⟩

lemma protoDot_ok_of_square {A : Matrix} {M0 : Matrix} {rest : List Matrix}
    (hwf : A.wf = true) (hsq : A.rows = A.cols)
    (hall : ∀ M ∈ M0 :: rest, M.rows = A.rows ∧ M.cols = A.cols) :
    ∃ B, A.protoDot (M0 :: rest) = .ok B ∧ B.rows = A.rows ∧ B.cols = A.cols := by
  obtain ⟨hlen, -⟩ := (wf_iff A).mp hwf
  obtain ⟨h0r, h0c⟩ := hall M0 (by simp)
  have hstep : dotStep A M0 = .ok (dotMat A M0) := by
    unfold dotStep
    rw [if_neg (by omega)]
  have hchain : firstBadFrom (dotMat A M0).cols rest = none := by
    have : (dotMat A M0).cols = A.cols := by rw [show (dotMat A M0).cols = M0.cols from rfl, h0c]
    rw [this]
    refine firstBadFrom_none_of_all ?_
    intro M hM
    obtain ⟨h1, h2⟩ := hall M (List.mem_cons_of_mem _ hM)
    omega
  obtain ⟨f, hf, hfr⟩ := dotChainRest_ok hchain
  have hdotFree : dotFree (A :: M0 :: rest) = .ok (some f) := by
    rw [dotFree_cons_cons, hstep, except_bind_ok, hf, except_bind_ok]
    rfl
  have hfrA : f.rows = A.rows := by
    rw [hfr]
    rfl
  have hcopy : A.copy (.mat f) = some ⟨A.rows, A.cols, copyVals A.value f⟩ := by
    rw [copy_mat_eq, if_pos (Or.inl (by omega))]
  refine ⟨⟨A.rows, A.cols, copyVals A.value f⟩, ?_, rfl, rfl⟩
  unfold Matrix.protoDot
  rw [if_pos ((protoDot_all_iff A (M0 :: rest) (by simp)).mpr ⟨hsq, hall⟩), hdotFree]
  simp only [Option.getD_some, hcopy]

lemma dotGrid_clone_right {M A : Matrix} (hMc : M.cols ≤ A.rows) :
    dotGrid M (cloneViaCopy A) = dotGrid M A := by
  unfold dotGrid
  rw [cloneViaCopy_cols]
  refine List.map_congr_left ?_
  intro i _
  refine List.map_congr_left ?_
  intro j hj
  rw [List.mem_range] at hj
  rw [dotCell_eq_sum, dotCell_eq_sum]
  refine congrArg _ (List.map_congr_left ?_)
  intro k hk
  rw [List.mem_range] at hk
  rw [entry_cloneViaCopy (by omega) hj]

lemma specPowFrom_shift (M A : Matrix) (k : Nat) :
    specPowFrom M A (k + 1) = specPowFrom (dotMat M A) A k := by
  induction k with
  | zero => rfl
  | succ k ih =>
    show dotMat (specPowFrom M A (k + 1)) A = dotMat (specPowFrom (dotMat M A) A k) A
    rw [ih]

lemma specPowFrom_rows (M A : Matrix) (k : Nat) : (specPowFrom M A k).rows = M.rows := by
  induction k with
  | zero => rfl
  | succ k ih => show (specPowFrom M A k).rows = M.rows; exact ih

lemma protoDot_single {n : Nat} {M A0 : Matrix} (hM : M.wf = true) (hMr : M.rows = n)
    (hMc : M.cols = n) (h0r : A0.rows = n) (h0c : A0.cols = n) :
    M.protoDot [A0] = .ok ⟨n, n, dotGrid M A0⟩ := by
  obtain ⟨hlen, hrows⟩ := (wf_iff M).mp hM
  have hchk : ([A0].all (fun N => M.rows == M.cols && M.dimensions == N.dimensions)) = true := by
    refine (protoDot_all_iff M [A0] (by simp)).mpr ⟨by omega, ?_⟩
    intro N hN
    rw [List.mem_singleton] at hN
    subst hN
    omega
  have hstep : dotStep M A0 = .ok (dotMat M A0) := by
    unfold dotStep
    rw [if_neg (by omega)]
  have hdotFree : dotFree (M :: [A0]) = .ok (some (dotMat M A0)) := by
    rw [dotFree_cons_cons, hstep, except_bind_ok]
    rfl
  have hsame : copyVals M.value (dotMat M A0) = dotGrid M A0 := by
    refine copyVals_same (by rw [hlen]; rfl) ?_ (dotMat_wf M A0)
    intro row hrow
    rw [hrows row hrow, hMc]
    exact h0c.symm
  have hcopy : M.copy (.mat (dotMat M A0)) = some ⟨M.rows, M.cols, copyVals M.value (dotMat M A0)⟩ := by
    rw [copy_mat_eq, if_pos (Or.inl (by rw [hlen]; exact le_refl M.rows))]
  unfold Matrix.protoDot
  rw [if_pos hchk, hdotFree]
  simp only [Option.getD_some, hcopy, hsame, hMr, hMc]

lemma powLoop_spec {n : Nat} {A : Matrix} (hA : A.wf = true) (hAr : A.rows = n)
    (hAc : A.cols = n) :
    ∀ (k : Nat) (M : Matrix), M.wf = true → M.rows = n → M.cols = n →
      powLoop (cloneViaCopy A) M k = .ok (specPowFrom M A k) := by
  intro k
  induction k with
  | zero => intro M _ _ _; rfl
  | succ k ih =>
    intro M hM hMr hMc
    have hstep : M.protoDot [cloneViaCopy A] = .ok ⟨n, n, dotGrid M (cloneViaCopy A)⟩ :=
      protoDot_single hM hMr hMc (by rw [cloneViaCopy_rows, hAr]) (by rw [cloneViaCopy_cols, hAc])
    have hclone : dotGrid M (cloneViaCopy A) = dotGrid M A :=
      dotGrid_clone_right (by omega)
    have hdm : (⟨n, n, dotGrid M A⟩ : Matrix) = dotMat M A := by
      unfold dotMat
      rw [hMr, hAc]
    have hwfd : (dotMat M A).wf = true := dotMat_wf M A
    rw [show powLoop (cloneViaCopy A) M (k + 1) =
        (M.protoDot [cloneViaCopy A] >>= fun M2 => powLoop (cloneViaCopy A) M2 k) from rfl]
    rw [hstep, except_bind_ok, hclone, hdm, specPowFrom_shift]
    exact ih (dotMat M A) hwfd (by simp [dotMat, hMr]) (by simp [dotMat, hAc])

lemma firstBad_none_iff (args : List Matrix) :
    firstBad args = none ↔ List.Chain' (fun X Y => X.cols = Y.rows) args := by
  induction args with
  | nil => simp [firstBad]
  | cons A rest ih =>
    cases rest with
    | nil => simp [firstBad, firstBadFrom]
    | cons B rest2 =>
      rw [List.chain'_cons, ← ih]
      show firstBadFrom A.cols (B :: rest2) = none ↔ _ ∧ firstBadFrom B.cols rest2 = none
      rw [firstBadFrom]
      by_cases hc : A.cols ≠ B.rows
      · rw [if_pos hc]
        simp [hc]
      · push_neg at hc
        rw [if_neg (by omega)]
        simp [hc]

/-- Claim C1: for an n×m matrix A and an m×p matrix B, the free function
`Matrix.dot(A, B)` returns a brand-new n×p matrix whose cell (i, j) is the
sum over k of `A[i][k] * B[k][j]`.  (The embedding is purely functional, so
A and B are untouched by construction; the concrete scenario of the claim is
checked in the witness.) -/
theorem dot_product_spec (A B : Matrix) (hAB : A.cols = B.rows) :
    ∃ C, dotFree [A, B] = .ok (some C) ∧ C.rows = A.rows ∧ C.cols = B.cols ∧ C.wf = true ∧
      ∀ i j, i < A.rows → j < B.cols →
        C.entry i j = ((List.range A.cols).map (fun k => A.entry i k * B.entry k j)).sum := by
  have hstep : dotStep A B = .ok (dotMat A B) := by
    unfold dotStep
    rw [if_neg (by omega)]
  refine ⟨dotMat A B, ?_, rfl, rfl, dotMat_wf A B, ?_⟩
  · rw [dotFree_cons_cons, hstep, except_bind_ok]
    rfl
  · intro i j hi hj
    rw [entry_dotMat hi hj, dotCell_eq_sum]

/-- Witness for C1 at the claim's concrete scenario: `A = [[1,2],[3,4]]`,
`B = [[5,6],[7,8]]` multiply to `[[19,22],[43,50]]`. -/
theorem dot_product_spec_witness :
    (∃ C, dotFree [mkGrid [[1,2],[3,4]], mkGrid [[5,6],[7,8]]] = .ok (some C) ∧
      C.rows = (mkGrid [[1,2],[3,4]]).rows ∧ C.cols = (mkGrid [[5,6],[7,8]]).cols ∧
      C.wf = true ∧
      ∀ i j, i < (mkGrid [[1,2],[3,4]]).rows → j < (mkGrid [[5,6],[7,8]]).cols →
        C.entry i j = ((List.range (mkGrid [[1,2],[3,4]]).cols).map
          (fun k => (mkGrid [[1,2],[3,4]]).entry i k * (mkGrid [[5,6],[7,8]]).entry k j)).sum) ∧
    dotFree [mkGrid [[1,2],[3,4]], mkGrid [[5,6],[7,8]]]
      = .ok (some ⟨2, 2, [[19,22],[43,50]]⟩) :=
  ⟨dot_product_spec (mkGrid [[1,2],[3,4]]) (mkGrid [[5,6],[7,8]]) (by decide), by decide⟩

/-- Claim C2 is refuted by the code: `new Matrix([2, 1])` (and `reset()` on
any matrix with more rows than columns) writes the diagonal 1 of row 1 past
the end of the row, so the grid is no longer `rows`×`cols`: the value becomes
`[[1], [0, 1]]`, whose second row has 2 entries although `cols = 1`. -/
theorem reset_identity_bug :
    (mkDims 2 1).value = [[1], [0, 1]] ∧ (mkDims 2 1).cols = 1 ∧ (mkDims 2 1).wf = false := by
  decide

/-- Claim C3, amended: `get(row, col)` returns the stored scalar in range, but
performs no IndexError check: a row index at or past `rows` throws a JS
TypeError (indexing into `undefined`), and an in-range row with a column index
at or past `cols` returns `undefined` without raising anything; no input
produces an IndexError. -/
theorem get_bounds_amended (A : Matrix) (i j : Nat) (hwf : A.wf = true) :
    (i < A.rows → j < A.cols → A.get i j = .val (A.entry i j)) ∧
    (A.rows ≤ i → A.get i j = .typeError) ∧
    (i < A.rows → A.cols ≤ j → A.get i j = .undef) ∧
    A.get i j ≠ .indexError :=
  ⟨fun hi hj => get_in_range hwf hi hj, fun hi => get_row_out j hwf hi,
    fun hi hj => get_col_out hwf hi hj, get_never_indexError A i j⟩

/-- Witness for the amended C3 on a concrete 1×1 matrix. -/
theorem get_bounds_amended_witness :
    (mkGrid [[7]]).get 0 0 = .val ((mkGrid [[7]]).entry 0 0) ∧
    (mkGrid [[7]]).get 0 3 = .undef ∧
    (mkGrid [[7]]).get 9 0 = .typeError :=
  ⟨(get_bounds_amended (mkGrid [[7]]) 0 0 (by decide)).1 (by decide) (by decide),
   (get_bounds_amended (mkGrid [[7]]) 0 3 (by decide)).2.2.1 (by decide) (by decide),
   (get_bounds_amended (mkGrid [[7]]) 9 0 (by decide)).2.1 (by decide)⟩

/-- Counterexample to C3 as stated: on the 2×2 matrix `[[1,2],[3,4]]` the
out-of-bounds access `get(0, 5)` does not fail with an IndexError — it
returns JS `undefined` (and an out-of-bounds row throws a TypeError instead). -/
theorem get_indexError_counterexample :
    (mkGrid [[1,2],[3,4]]).get 0 5 = .undef ∧
    (mkGrid [[1,2],[3,4]]).get 0 5 ≠ .indexError ∧
    (mkGrid [[1,2],[3,4]]).get 2 0 = .typeError := by
  decide

/-- Claim C6: each pairwise step of the free `Matrix.dot` requires
`left.cols == right.rows`; the first violated adjacent pair aborts the chain
with a DimensionError carrying exactly the two mismatched extents, and no
dimension error is raised when every adjacent pair is compatible. -/
theorem dot_dimension_check (args : List Matrix) :
    (∀ a b, firstBad args = some (a, b) → dotFree args = .error (.dimensionError a b)) ∧
    (List.Chain' (fun X Y => X.cols = Y.rows) args → ∃ r, dotFree args = .ok r) ∧
    (firstBad args = none ↔ List.Chain' (fun X Y => X.cols = Y.rows) args) := by
  refine ⟨?_, ?_, firstBad_none_iff args⟩
  · intro a b h
    match args with
    | [] => simp [firstBad] at h
    | [A] => simp [firstBad, firstBadFrom] at h
    | A :: B :: rest =>
      have h' : firstBadFrom A.cols (B :: rest) = some (a, b) := h
      rw [firstBadFrom] at h'
      by_cases hc : A.cols ≠ B.rows
      · rw [if_pos hc] at h'
        have hab : a = A.cols ∧ b = B.rows := by
          injection h' with h2
          obtain ⟨h3, h4⟩ := Prod.mk.injEq .. ▸ h2
          exact ⟨h3.symm, h4.symm⟩
        obtain ⟨ha, hb⟩ := hab
        subst ha; subst hb
        rw [dotFree_cons_cons, show dotStep A B = .error (.dimensionError A.cols B.rows) from
          by unfold dotStep; rw [if_pos hc], except_bind_err]
      · rw [if_neg hc] at h'
        push_neg at hc
        have hstep : dotStep A B = .ok (dotMat A B) := by
          unfold dotStep
          rw [if_neg (by omega)]
        rw [dotFree_cons_cons, hstep, except_bind_ok,
          dotChainRest_err (show firstBadFrom (dotMat A B).cols rest = some (a, b) from h'),
          except_bind_err]
  · intro hchain
    have hnone : firstBad args = none := (firstBad_none_iff args).mpr hchain
    match args with
    | [] => exact ⟨none, rfl⟩
    | [A] => exact ⟨none, rfl⟩
    | A :: B :: rest =>
      have h' : firstBadFrom A.cols (B :: rest) = none := hnone
      rw [firstBadFrom] at h'
      by_cases hc : A.cols ≠ B.rows
      · rw [if_pos hc] at h'
        exact absurd h' (by simp)
      · rw [if_neg hc] at h'
        push_neg at hc
        have hstep : dotStep A B = .ok (dotMat A B) := by
          unfold dotStep
          rw [if_neg (by omega)]
        obtain ⟨f, hf, -⟩ :=
          dotChainRest_ok (show firstBadFrom (dotMat A B).cols rest = none from h')
        exact ⟨some f, by rw [dotFree_cons_cons, hstep, except_bind_ok, hf, except_bind_ok]; rfl⟩

/-- Witness for C6: a 2×3 by 2×2 product fails with a DimensionError
reporting 3 and 2, and a compatible 1×3 by 3×1 chain raises nothing. -/
theorem dot_dimension_check_witness :
    dotFree [mkGrid [[1,2,3],[4,5,6]], mkGrid [[1,2],[3,4]]]
      = .error (.dimensionError 3 2) ∧
    (∃ r, dotFree [mkGrid [[1,2,3]], mkGrid [[1],[1],[1]]] = .ok r) :=
  ⟨(dot_dimension_check [mkGrid [[1,2,3],[4,5,6]], mkGrid [[1,2],[3,4]]]).1 3 2 (by decide),
   (dot_dimension_check [mkGrid [[1,2,3]], mkGrid [[1],[1],[1]]]).2.1
     ((firstBad_none_iff [mkGrid [[1,2,3]], mkGrid [[1],[1],[1]]]).mp (by decide))⟩

lemma atRow_zeroGrid {r c : Nat} (v : Int) {i : Nat} (hi : i < r) :
    atRow (zeroGrid r c v) i = List.replicate c v := by
  unfold atRow zeroGrid
  rw [List.getD_eq_getElem?_getD, List.getElem?_replicate, if_pos hi]
  rfl

/-- Claim C4, amended: `copy` performs no shape validation at all.  A source
with at most as many rows as the receiver's grid always succeeds — same-shape
sources overwrite the grid exactly, smaller sources overwrite only their own
range and leave the other receiver cells unchanged — while a source with more
rows than the receiver (and at least one column) throws a JS TypeError, not a
ShapeError.  A raw grid source is first coerced through the constructor. -/
theorem copy_no_shape_check (A M : Matrix) (hA : A.wf = true) (hM : M.wf = true) :
    ((A.copy (.mat M)).isSome ↔ (M.rows ≤ A.rows ∨ M.cols = 0)) ∧
    (A.rows = M.rows → A.cols = M.cols → A.copy (.mat M) = some ⟨A.rows, A.cols, M.value⟩) ∧
    (∀ B, A.copy (.mat M) = some B → B.rows = A.rows ∧ B.cols = A.cols ∧
      ∀ i j, i < A.rows → j < A.cols →
        B.entry i j = if i < M.rows ∧ j < M.cols then M.entry i j else A.entry i j) ∧
    (∀ g, A.copy (.raw g) = A.copy (.mat (mkGrid g))) := by
  obtain ⟨hlen, hrows⟩ := (wf_iff A).mp hA
  have hcond : (M.rows ≤ A.value.length ∨ M.cols = 0) ↔ (M.rows ≤ A.rows ∨ M.cols = 0) := by
    rw [hlen]
  refine ⟨?_, ?_, ?_, fun g => copy_raw_eq A g⟩
  · rw [copy_mat_eq]
    by_cases h : M.rows ≤ A.value.length ∨ M.cols = 0
    · rw [if_pos h]
      simpa using hcond.mp h
    · rw [if_neg h]
      simpa using fun hh => h (hcond.mpr hh)
  · intro h1 h2
    rw [copy_mat_eq, if_pos (Or.inl (by omega))]
    have := copyVals_same (M := M) (by omega : A.value.length = M.rows)
      (fun row hrow => by rw [hrows row hrow]; omega) hM
    rw [this]
  · intro B hB
    rw [copy_mat_eq] at hB
    by_cases h : M.rows ≤ A.value.length ∨ M.cols = 0
    · rw [if_pos h] at hB
      injection hB with hB2
      subst hB2
      refine ⟨rfl, rfl, ?_⟩
      intro i j hi hj
      have hi' : i < A.value.length := by omega
      by_cases hir : i < M.rows
      · by_cases hjc : j < M.cols
        · rw [if_pos ⟨hir, hjc⟩]
          exact atG_copyVals_src hi' hir hjc
        · rw [if_neg (by tauto)]
          exact atG_copyVals_old_col hi' hir (by omega)
      · rw [if_neg (by tauto)]
        exact atG_copyVals_old_row j hi' (by omega)
    · rw [if_neg h] at hB
      exact Option.noConfusion hB

/-- Witness for the amended C4: copying the 1×1 matrix `[[5]]` into a 2×2
identity succeeds with no error despite the shape mismatch, overwriting only
cell (0,0); a same-shaped copy replaces the grid wholesale; a 3-row source
into a 2-row receiver throws (TypeError), observed as `none`. -/
theorem copy_no_shape_check_witness :
    ((mkDims 2 2).copy (.mat (mkGrid [[5]]))).isSome ∧
    (mkDims 2 2).copy (.mat (mkGrid [[5,6],[7,8]]))
      = some ⟨2, 2, (mkGrid [[5,6],[7,8]]).value⟩ ∧
    (mkDims 2 2).copy (.mat (mkGrid [[1],[2],[3]])) = none :=
  ⟨((copy_no_shape_check (mkDims 2 2) (mkGrid [[5]]) (by decide) (by decide)).1).mpr
      (Or.inl (by decide)),
   (copy_no_shape_check (mkDims 2 2) (mkGrid [[5,6],[7,8]]) (by decide) (by decide)).2.1
      (by decide) (by decide),
   by decide⟩

/-- Counterexample to C4 as stated: the 1×1 source `[[5]]` differs in shape
from the 2×2 receiver, yet `copy` raises no ShapeError — it succeeds, writing
the one source cell and leaving the rest of the receiver intact. -/
theorem copy_shape_counterexample :
    (mkGrid [[5]]).dimensions ≠ (mkDims 2 2).dimensions ∧
    (mkDims 2 2).copy (.mat (mkGrid [[5]])) = some ⟨2, 2, [[5, 0], [0, 1]]⟩ := by
  decide

/-- Claim C8: the `T` getter returns a new matrix with swapped dimensions and
transposed cells, leaving the source untouched (the embedding is functional),
and transposing twice gives back the original matrix. -/
theorem transpose_spec (A : Matrix) (hwf : A.wf = true) (hr : 1 ≤ A.rows)
    (hc : 1 ≤ A.cols) :
    A.T.rows = A.cols ∧ A.T.cols = A.rows ∧ A.T.wf = true ∧
    (∀ i j, i < A.rows → j < A.cols → A.T.entry j i = A.entry i j) ∧
    A.T.T = A := by
  obtain ⟨hlen, hrows⟩ := (wf_iff A).mp hwf
  have hne : A.value ≠ [] := by
    intro h
    rw [h] at hlen
    simp at hlen
    omega
  have hmax : maxLen A.value = A.cols := maxLen_const hne hrows
  refine ⟨rfl, rfl, ?_, ?_, ?_⟩
  · rw [wf_iff]
    constructor
    · show (zipGrid A.value).length = A.cols
      unfold zipGrid
      rw [hmax]
      simp
    · intro row hrow
      unfold Matrix.T zipGrid at hrow
      simp only [List.mem_map, List.mem_range] at hrow
      obtain ⟨j, -, rfl⟩ := hrow
      show (A.value.map _).length = A.rows
      rw [List.length_map, hlen]
  · intro i j hi hj
    have hi' : i < A.value.length := by omega
    show atG (zipGrid A.value) j i = A.entry i j
    unfold zipGrid
    rw [atG, atRow_map_range _ (by rw [hmax]; exact hj), List.getD_eq_getElem?_getD,
      List.getElem?_map, List.getElem?_eq_getElem hi', Option.map_some', Option.getD_some]
    exact (atG_eq_getD_getElem hi' j).symm
  · have hv : zipGrid (zipGrid A.value) = A.value := zipGrid_zipGrid hne hrows (by omega)
    show (⟨A.rows, A.cols, zipGrid (zipGrid A.value)⟩ : Matrix) = A
    rw [hv]

/-- Witness for C8 at `A = [[1,2],[3,4]]`: the transpose grid is
`[[1,3],[2,4]]` and the double transpose is `A` again. -/
theorem transpose_spec_witness :
    (mkGrid [[1,2],[3,4]]).T.T = mkGrid [[1,2],[3,4]] ∧
    (mkGrid [[1,2],[3,4]]).T.value = [[1,3],[2,4]] :=
  ⟨(transpose_spec (mkGrid [[1,2],[3,4]]) (by decide) (by decide) (by decide)).2.2.2.2,
   by decide⟩

lemma protoAdd_nil (A : Matrix) : protoAdd A [] = .ok A := rfl

lemma protoAdd_scalar (A : Matrix) (v : Int) (rest : List Operand) :
    protoAdd A (.scalar v :: rest)
      = protoAdd ⟨A.rows, A.cols, ewAdd A.rows A.cols A.value (zeroGrid A.rows A.cols v)⟩ rest :=
  rfl

lemma protoAdd_matrix_eq (A M : Matrix) (rest : List Operand) :
    protoAdd A (.matrix M :: rest)
      = if A.dimensions == M.dimensions then
          protoAdd ⟨A.rows, A.cols, ewAdd A.rows A.cols A.value M.value⟩ rest
        else .error .addShape := rfl

/-- Claim C9: `Matrix.add(A, s)` with a numeric scalar broadcasts `s` to a
matrix of the receiver's shape and adds it cell by cell: the result has A's
shape and `get(i, j)` equal to `A.get(i, j) + s` everywhere. -/
theorem add_scalar_spec (A : Matrix) (s : Int) (hwf : A.wf = true) :
    ∃ C, freeAdd [.matrix A, .scalar s] = .ok C ∧ C.rows = A.rows ∧ C.cols = A.cols ∧
      C.wf = true ∧
      ∀ i j, i < A.rows → j < A.cols →
        C.entry i j = A.entry i j + s ∧ C.get i j = .val (A.entry i j + s) := by
  have hzlen : (zeroGrid A.rows A.cols 0).length = A.rows := by simp [zeroGrid]
  have hcomp : freeAdd [.matrix A, .scalar s] = .ok
      ⟨A.rows, A.cols,
        ewAdd A.rows A.cols (ewAdd A.rows A.cols (zeroGrid A.rows A.cols 0) A.value)
          (zeroGrid A.rows A.cols s)⟩ := by
    rw [show freeAdd [Operand.matrix A, Operand.scalar s]
        = protoAdd ⟨A.rows, A.cols, zeroGrid A.rows A.cols 0⟩
            [Operand.matrix A, Operand.scalar s] from rfl,
      protoAdd_matrix_eq, if_pos (by simp [Matrix.dimensions]), protoAdd_scalar, protoAdd_nil]
  have h0wf : (⟨A.rows, A.cols, zeroGrid A.rows A.cols 0⟩ : Matrix).wf = true :=
    zeroGrid_wf A.rows A.cols 0
  have h1wf : (⟨A.rows, A.cols,
      ewAdd A.rows A.cols (zeroGrid A.rows A.cols 0) A.value⟩ : Matrix).wf = true :=
    ewAdd_wf (A := ⟨A.rows, A.cols, zeroGrid A.rows A.cols 0⟩) h0wf
  have h2wf : (⟨A.rows, A.cols,
      ewAdd A.rows A.cols (ewAdd A.rows A.cols (zeroGrid A.rows A.cols 0) A.value)
        (zeroGrid A.rows A.cols s)⟩ : Matrix).wf = true :=
    ewAdd_wf (A := ⟨A.rows, A.cols, ewAdd A.rows A.cols (zeroGrid A.rows A.cols 0) A.value⟩)
      h1wf
  have hentry : ∀ i j, i < A.rows → j < A.cols →
      atG (ewAdd A.rows A.cols (ewAdd A.rows A.cols (zeroGrid A.rows A.cols 0) A.value)
        (zeroGrid A.rows A.cols s)) i j = A.entry i j + s := by
    intro i j hi hj
    have hrow0 : (atRow (zeroGrid A.rows A.cols 0) i).length = A.cols := by
      rw [atRow_zeroGrid 0 hi]
      simp
    have e1 : atG (ewAdd A.rows A.cols (zeroGrid A.rows A.cols 0) A.value) i j
        = 0 + A.entry i j := by
      rw [atG_ewAdd (by omega) hi (by omega) hj, atG_zeroGrid 0 hi hj]
      rfl
    have hl1 : (ewAdd A.rows A.cols (zeroGrid A.rows A.cols 0) A.value).length = A.rows := by
      rw [length_ewAdd, hzlen]
    have hr1 : (atRow (ewAdd A.rows A.cols (zeroGrid A.rows A.cols 0) A.value) i).length
        = A.cols := by
      rw [length_atRow_ewAdd (by omega), atRow_zeroGrid 0 hi]
      simp
    rw [atG_ewAdd (by omega) hi (by omega) hj, e1, atG_zeroGrid s hi hj, zero_add]
  refine ⟨_, hcomp, rfl, rfl, h2wf, ?_⟩
  intro i j hi hj
  refine ⟨hentry i j hi hj, ?_⟩
  rw [get_in_range h2wf hi hj]
  exact congrArg GetResult.val (hentry i j hi hj)

/-- Witness for C9 at the claim scenario `add([[1,2],[3,4]], 4) = [[5,6],[7,8]]`. -/
theorem add_scalar_spec_witness :
    freeAdd [.matrix (mkGrid [[1,2],[3,4]]), .scalar 4] = .ok (mkGrid [[5,6],[7,8]]) ∧
    (∃ C, freeAdd [.matrix (mkGrid [[1,2],[3,4]]), .scalar 4] = .ok C ∧
      C.rows = (mkGrid [[1,2],[3,4]]).rows ∧ C.cols = (mkGrid [[1,2],[3,4]]).cols ∧
      C.wf = true ∧
      ∀ i j, i < (mkGrid [[1,2],[3,4]]).rows → j < (mkGrid [[1,2],[3,4]]).cols →
        C.entry i j = (mkGrid [[1,2],[3,4]]).entry i j + 4 ∧
        C.get i j = .val ((mkGrid [[1,2],[3,4]]).entry i j + 4)) :=
  ⟨by decide, add_scalar_spec (mkGrid [[1,2],[3,4]]) 4 (by decide)⟩

/-- Claim C5, amended (the claim as stated is refuted by a zero-operand call,
see the counterexample): for every call of the prototype `dot` with at least
one operand, the call succeeds exactly when the receiver is square and every
operand's dimensions equal the receiver's; whenever the receiver is not
square or some operand's shape differs, it throws the
`'Must supply matrices of equal dimensions'` error.  (The free-function form
instead accepts any chain that is pairwise compatible; see the C6 theorem.) -/
theorem protoDot_square_check (A : Matrix) (args : List Matrix) (hwf : A.wf = true)
    (hne : args ≠ []) :
    ((∃ B, A.protoDot args = .ok B) ↔
      (A.rows = A.cols ∧ ∀ M ∈ args, M.rows = A.rows ∧ M.cols = A.cols)) ∧
    (¬ (A.rows = A.cols ∧ ∀ M ∈ args, M.rows = A.rows ∧ M.cols = A.cols) →
      A.protoDot args = .error .protoDotShape) := by
  have herr : ¬ (A.rows = A.cols ∧ ∀ M ∈ args, M.rows = A.rows ∧ M.cols = A.cols) →
      A.protoDot args = .error .protoDotShape := by
    intro hnot
    unfold Matrix.protoDot
    rw [if_neg (fun hall => hnot ((protoDot_all_iff A args hne).mp hall))]
  refine ⟨⟨?_, ?_⟩, herr⟩
  · rintro ⟨B, hB⟩
    by_contra hnot
    rw [herr hnot] at hB
    exact Except.noConfusion hB
  · rintro ⟨hsq, hall⟩
    cases args with
    | nil => exact absurd rfl hne
    | cons M0 rest =>
      obtain ⟨B, hB, -, -⟩ := protoDot_ok_of_square hwf hsq hall
      exact ⟨B, hB⟩

/-- Witness for the amended C5: with one same-shaped operand a square 2×2
receiver succeeds, and a 1×3 operand on the same receiver throws. -/
theorem protoDot_square_check_witness :
    (∃ B, (mkGrid [[1,2],[3,4]]).protoDot [mkGrid [[5,6],[7,8]]] = .ok B) ∧
    (mkGrid [[1,2],[3,4]]).protoDot [mkGrid [[1,2,3]]] = .error .protoDotShape :=
  ⟨((protoDot_square_check (mkGrid [[1,2],[3,4]]) [mkGrid [[5,6],[7,8]]]
      (by decide) (by decide)).1).mpr ⟨rfl, by decide⟩,
   (protoDot_square_check (mkGrid [[1,2],[3,4]]) [mkGrid [[1,2,3]]]
      (by decide) (by decide)).2 (by decide)⟩

/-- Counterexample to C5 as stated: a call on a non-square 2×3 receiver with
no operands runs the per-operand check zero times and raises no error at all
(the delegate returns `undefined`, whose coercion is the default 2×2 identity
matrix, and copying it back leaves this particular receiver's grid
unchanged).  The outcome of a zero-operand call is not uniform: the last
conjunct shows that on a one-row non-square receiver the same call instead
throws a TypeError (copying the default 2×2 matrix into a missing row) —
still never the equal-dimensions error the claim describes. -/
theorem protoDot_nonsquare_counterexample :
    (mkGrid [[1,0,0],[0,1,0]]).rows ≠ (mkGrid [[1,0,0],[0,1,0]]).cols ∧
    (mkGrid [[1,0,0],[0,1,0]]).protoDot [] = .ok (mkGrid [[1,0,0],[0,1,0]]) ∧
    (mkGrid [[1,2]]).rows ≠ (mkGrid [[1,2]]).cols ∧
    (mkGrid [[1,2]]).protoDot [] = .error .typeError := by
  decide

lemma powM_succ (A : Matrix) (k : Nat) :
    A.powM (k + 1) = powLoop (cloneViaCopy A) A k := by
  unfold Matrix.powM
  rw [if_neg (by omega)]
  rfl

/-- Claim C7: for a square matrix, `pow(0)` resets the receiver to the
identity pattern regardless of its prior values, `pow(1)` leaves its value
unchanged, and `pow(e)` for `e ≥ 1` equals `e − 1` successive applications of
the prototype dot product against the saved copy of the original value
(`specPowFrom A A (e-1)`, a linear chain, not repeated squaring). -/
theorem pow_spec (A : Matrix) (hwf : A.wf = true) (hsq : A.rows = A.cols) :
    (A.powM 0 = .ok A.resetM ∧
      (∀ i j, i < A.rows → j < A.rows → A.resetM.entry i j = if i = j then 1 else 0) ∧
      A.resetM.wf = true) ∧
    A.powM 1 = .ok A ∧
    (∀ e, 1 ≤ e → A.powM e = .ok (specPowFrom A A (e - 1))) := by
  refine ⟨⟨rfl, ?_, resetGrid_wf (by omega)⟩, rfl, ?_⟩
  · intro i j hi hj
    exact atG_resetGrid hi (by omega) (by omega)
  · intro e he
    obtain ⟨k, rfl⟩ : ∃ k, e = k + 1 := ⟨e - 1, by omega⟩
    rw [powM_succ, show k + 1 - 1 = k from rfl]
    exact powLoop_spec hwf rfl hsq.symm k A hwf rfl hsq.symm

/-- Witness for C7 at `A = [[1,1],[0,1]]`: `pow(0)` resets, `pow(1)` is the
identity operation on the value, and `pow(3)` is two dot products against the
saved original, giving `[[1,3],[0,1]]`. -/
theorem pow_spec_witness :
    (mkGrid [[1,1],[0,1]]).powM 0 = .ok (mkGrid [[1,1],[0,1]]).resetM ∧
    (mkGrid [[1,1],[0,1]]).powM 1 = .ok (mkGrid [[1,1],[0,1]]) ∧
    (mkGrid [[1,1],[0,1]]).powM 3
      = .ok (specPowFrom (mkGrid [[1,1],[0,1]]) (mkGrid [[1,1],[0,1]]) 2) ∧
    (specPowFrom (mkGrid [[1,1],[0,1]]) (mkGrid [[1,1],[0,1]]) 2).value = [[1,3],[0,1]] :=
  ⟨(pow_spec (mkGrid [[1,1],[0,1]]) (by decide) rfl).1.1,
   (pow_spec (mkGrid [[1,1],[0,1]]) (by decide) rfl).2.1,
   (pow_spec (mkGrid [[1,1],[0,1]]) (by decide) rfl).2.2 3 (by decide),
   by decide⟩

lemma protoProduct_nil (A : Matrix) : protoProduct A [] = .ok A := rfl

lemma protoProduct_scalar (A : Matrix) (v : Int) (rest : List Operand) :
    protoProduct A (.scalar v :: rest)
      = protoProduct ⟨A.rows, A.cols, scaleGrid A.rows A.cols A.value v⟩ rest := rfl

lemma protoProduct_matrix (A M : Matrix) (rest : List Operand) :
    protoProduct A (.matrix M :: rest)
      = (A.protoDot [M] >>= fun A2 => protoProduct A2 rest) := rfl

lemma protoProduct_other (A : Matrix) (g : List (List Int)) (rest : List Operand) :
    protoProduct A (.other g :: rest) = protoProduct A rest := rfl

lemma protoProduct_skip (g : List (List Int)) (post : List Operand) :
    ∀ (pre : List Operand) (A : Matrix),
      protoProduct A (pre ++ .other g :: post) = protoProduct A (pre ++ post) := by
  intro pre
  induction pre with
  | nil => intro A; exact protoProduct_other A g post
  | cons o pre ih =>
    intro A
    cases o with
    | scalar v =>
      rw [List.cons_append, List.cons_append, protoProduct_scalar, protoProduct_scalar, ih]
    | matrix M =>
      rw [List.cons_append, List.cons_append, protoProduct_matrix, protoProduct_matrix]
      cases h : A.protoDot [M] with
      | error e => rw [except_bind_err, except_bind_err]
      | ok A2 => rw [except_bind_ok, except_bind_ok, ih]
    | other g2 =>
      rw [List.cons_append, List.cons_append, protoProduct_other, protoProduct_other, ih]

lemma freeProduct_matrix (F : Matrix) (rest : List Operand) :
    freeProduct (.matrix F :: rest) = protoProduct (cloneViaCopy F) rest := rfl

/-- Claim C10: an operand of `product` that is neither a number nor a Matrix
instance — such as the raw nested array returned by the `I` getter — matches
neither branch of the operand loop and is silently skipped, raising no error
and leaving the running result exactly as it would be without that operand,
in both the prototype form and the free-function form; in particular
`Matrix.product(F, F.I)` returns the plain copy of `F` that seeding
the result with `F` produces. -/
theorem product_skips_other (A F : Matrix) (g : List (List Int))
    (pre post : List Operand) :
    protoProduct A (pre ++ .other g :: post) = protoProduct A (pre ++ post) ∧
    freeProduct (.matrix F :: (pre ++ .other g :: post))
      = freeProduct (.matrix F :: (pre ++ post)) ∧
    freeProduct [.matrix F, .other F.I] = .ok (cloneViaCopy F) := by
  refine ⟨protoProduct_skip g post pre A, ?_, rfl⟩
  rw [freeProduct_matrix, freeProduct_matrix, protoProduct_skip g post pre (cloneViaCopy F)]

end MatrixJS
